import Mathlib

/-
Verification development for the GST reconciliation backend
(src/backend/main.py).  The reconciliation core is shallowly embedded:
the NetworkX directed graph becomes an explicit structure of node and
edge lists, Neo4j records become row lists, Python floats become
rationals, and the external generative-text service, per-entry store
failures and timestamps become explicit oracles threaded through the
pipeline.  Absent node attributes and attributes stored as null are both
modelled as `Option.none` (the source reads them through `dict.get` with
a default, so the two are indistinguishable to the detection logic).
-/

set_option autoImplicit false

namespace GST

/-- Attribute bag of one NetworkX node.  Taxpayer nodes only carry
`typ` (the source attribute is named `type`); Invoice nodes carry all
six attributes, as set by `build_networkx_graph`. -/
structure NodeData where
  typ : Option String := none
  amount : Option ℚ := none
  status : Option String := none
  hsn_code : Option String := none
  tax_rate : Option ℚ := none
  period : Option String := none
deriving DecidableEq, Repr, Inhabited

/-- An in-memory directed graph: ordered association list of nodes
(insertion order, unique keys for well-formed graphs) and ordered edge
list `(src, dst, rel)`, mirroring `nx.DiGraph`. -/
structure Graph where
  nodes : List (String × NodeData) := []
  edges : List (String × String × String) := []
deriving DecidableEq, Repr, Inhabited

namespace Graph

def nodeKeys (G : Graph) : List String := G.nodes.map Prod.fst

/-- Attribute lookup, `G.nodes[n]` in NetworkX (cycle members are always
present; a missing node yields the empty attribute bag). -/
def getNodeData (G : Graph) (n : String) : NodeData :=
  (G.nodes.lookup n).getD {}

def hasEdge (G : Graph) (u v : String) : Bool :=
  G.edges.any fun e => e.1 == u && e.2.1 == v

/-- `G.predecessors n` — sources of in-edges, in edge insertion order. -/
def predecessors (G : Graph) (n : String) : List String :=
  (G.edges.filter fun e => e.2.1 == n).map Prod.fst

/-- `G.successors n` — targets of out-edges, in edge insertion order. -/
def successors (G : Graph) (n : String) : List String :=
  (G.edges.filter fun e => e.1 == n).map fun e => e.2.1

/-- Well-formed graphs: node keys are unique (NetworkX nodes form a
dict) and every edge endpoint is a node (NetworkX `add_edge` inserts
missing endpoints). -/
def Wf (G : Graph) : Prop :=
  G.nodeKeys.Nodup ∧ ∀ e ∈ G.edges, e.1 ∈ G.nodeKeys ∧ e.2.1 ∈ G.nodeKeys

instance (G : Graph) : Decidable G.Wf := by
  unfold Wf; infer_instance

end Graph

/-- Raw-fact bag attached to a finding: invoice facts captured at
detection time, or the taxpayer cycle for circular findings. -/
inductive RawFacts where
  | facts (status : Option String) (hsn : String) (tax_rate : ℚ)
  | cycle (taxpayers : List String)
deriving DecidableEq, Repr

/-- One mismatch finding, the dict appended to `mismatches` in
`detect_mismatches`. -/
structure Finding where
  inv_no : String
  supplier_gstin : String
  buyer_gstin : String
  amount : ℚ
  period : Option String
  mismatch_type : String
  severity : String
  traversal_path : List String
  raw : RawFacts
deriving DecidableEq, Repr

/-- `VALID_TAX_RATES` from `detect_mismatches` (`mkRat` keeps the
fractional entries kernel-computable). -/
def VALID_TAX_RATES : List ℚ :=
  [0, mkRat 1 10, mkRat 1 4, 1, mkRat 3 2, 3, 5, 6, mkRat 15 2, 9, 12, 14, 18, 28]

/-- Checks 1–4 of `detect_mismatches` for a single Invoice node, after
supplier/buyer resolution.  Check 2 is the `elif` branch of check 1;
checks 3 and 4 are independent `if`s. -/
def invoiceChecks (inv_no : String) (d : NodeData) (supplier buyer : String) :
    List Finding :=
  let status := d.status
  let amount : ℚ := d.amount.getD 0
  let hsn : String := d.hsn_code.getD ""
  let tax_rate : ℚ := d.tax_rate.getD 0
  let period := d.period
  let raw := RawFacts.facts status hsn tax_rate
  (if status = some "mismatch" then
    [⟨inv_no, supplier, buyer, amount, period, "Amount Mismatch", "high",
      ["Invoice Node", "GSTR-1 Filing", "Supplier GSTIN", "GSTR-2B Cross-Ref",
       "Buyer GSTIN"], raw⟩]
   else if status = some "missing" then
    [⟨inv_no, supplier, buyer, amount, period, "Missing in GSTR-2B", "high",
      ["Invoice Node", "GSTR-1 Filing", "GSTIN Lookup", "GSTR-2B (NOT FOUND)"],
      raw⟩]
   else []) ++
  (if hsn ≠ "" ∧ hsn ∉ (["", "nan"] : List String) ∧
      hsn.length ∉ ([4, 6, 8] : List Nat) then
    [⟨inv_no, supplier, buyer, amount, period, "Invalid HSN Code", "medium",
      ["Invoice Node", "Product Description", "HSN Master Lookup",
       "Category Validation"], raw⟩]
   else []) ++
  (if tax_rate ≠ 0 ∧ tax_rate ∉ VALID_TAX_RATES then
    [⟨inv_no, supplier, buyer, amount, period, "Invalid Tax Rate", "medium",
      ["Invoice Node", "HSN Code Lookup", "Tax Rate Validation",
       "Rate Schedule Cross-Ref"], raw⟩]
   else [])

/-- Per-node step of the main detection loop: non-Invoice nodes are
skipped (`continue`), Invoice nodes get checks 1–4 with supplier/buyer
resolved as first predecessor/successor, `"UNKNOWN"` if absent. -/
def nodeFindings (G : Graph) (x : String × NodeData) : List Finding :=
  if x.2.typ = some "Invoice" then
    invoiceChecks x.1 x.2 ((G.predecessors x.1).headD "UNKNOWN")
      ((G.successors x.1).headD "UNKNOWN")
  else []

/-- Simple-cycle search used by the model of `nx.simple_cycles`: all
paths `cur → y₁ → ⋯ → yₖ → start` whose interior vertices are distinct
members of `allowed`.  `fuel` only drives structural recursion; it is
called with `fuel > allowed.length`, which never exhausts. -/
def cyclePaths (G : Graph) (start : String) :
    Nat → String → List String → List (List String)
  | 0, _, _ => []
  | fuel + 1, cur, allowed =>
      (if G.hasEdge cur start then [[]] else []) ++
      allowed.flatMap fun y =>
        if G.hasEdge cur y then
          (cyclePaths G start fuel y (allowed.erase y)).map fun p => y :: p
        else []

/-- Model of `nx.simple_cycles G`: every simple directed cycle exactly
once, rotated to start at its earliest node in node insertion order
(cycles through node `i` use only later nodes as interior vertices). -/
def Graph.simpleCycles (G : Graph) : List (List String) :=
  let V := G.nodeKeys
  (List.range V.length).flatMap fun i =>
    let start := V.getD i ""
    let allowed := V.drop (i + 1)
    (cyclePaths G start (allowed.length + 1) start allowed).map
      fun p => start :: p

/-- Taxpayer subsequence of a cycle:
`[n for n in cycle if G.nodes[n].get("type") == "Taxpayer"]`. -/
def taxpayersOf (G : Graph) (c : List String) : List String :=
  c.filter fun n => (G.getNodeData n).typ = some "Taxpayer"

/-- Check 5 applied to one enumerated cycle: a circular-transaction
finding when at least two taxpayers lie on the cycle. -/
def cycleFinding (G : Graph) (c : List String) : Option Finding :=
  let taxpayers := taxpayersOf G c
  if 2 ≤ taxpayers.length then
    some ⟨"CIRCULAR-PATTERN", taxpayers.headD "", taxpayers.getLastD "", 0,
      some "N/A", "Circular Transaction Pattern", "high", taxpayers,
      RawFacts.cycle taxpayers⟩
  else none

def cycleFindings (G : Graph) : List Finding :=
  G.simpleCycles.filterMap (cycleFinding G)

/-- The circular-transaction finding built from one cycle (the record
appended by check 5 when it fires). -/
def circularFindingOf (G : Graph) (c : List String) : Finding :=
  ⟨"CIRCULAR-PATTERN", (taxpayersOf G c).headD "", (taxpayersOf G c).getLastD "",
    0, some "N/A", "Circular Transaction Pattern", "high", taxpayersOf G c,
    RawFacts.cycle (taxpayersOf G c)⟩

/-- `detect_mismatches`: per-invoice checks in node iteration order,
followed by circular-transaction findings in cycle enumeration order. -/
def detect_mismatches (G : Graph) : List Finding :=
  G.nodes.flatMap (nodeFindings G) ++ cycleFindings G

/-! ### Narrative generation (`rule_based_audit`, `llm_audit`) -/

/-- Thousands-separator insertion over reversed digit characters. -/
def commaChars : Nat → List Char → List Char
  | _, [] => []
  | i, c :: cs =>
      if i % 3 == 0 && i != 0 then ',' :: c :: commaChars (i + 1) cs
      else c :: commaChars (i + 1) cs

def commaGroupNat (n : Nat) : String :=
  String.mk ((commaChars 0 (toString n).data.reverse).reverse)

/-- Round `n / d` to the nearest integer, ties to even — CPython
rounding for `.0f` on exactly representable values. -/
def roundHalfEvenNat (n d : Nat) : Nat :=
  let q := n / d
  let r2 := 2 * (n % d)
  if r2 < d then q
  else if d < r2 then q + 1
  else if q % 2 == 0 then q else q + 1

/-- `f"₹\x7bamt:,.0f\x7d"`: rupee sign, round-half-even to a whole
number, comma grouping (floats are modelled as rationals, so this
renders the exactly-representable amounts the pipeline stores). -/
def fmtCurrency (q : ℚ) : String :=
  "₹" ++ (if q.num < 0 then "-" else "") ++
    commaGroupNat (roundHalfEvenNat q.num.natAbs q.den)

def fracDigits : Nat → Nat → Nat → List Char
  | 0, _, _ => []
  | _, 0, _ => []
  | fuel + 1, r, d =>
      let r10 := r * 10
      Char.ofNat (48 + r10 / d) :: fracDigits fuel (r10 % d) d

/-- Python `str` of a float, on a rational with a terminating decimal
expansion (all values the upload path stores terminate). -/
def pyFloatStr (q : ℚ) : String :=
  let sign := if q.num < 0 then "-" else ""
  let n := q.num.natAbs
  let fds := fracDigits 17 (n % q.den) q.den
  sign ++ toString (n / q.den) ++ "." ++
    (if fds.isEmpty then "0" else String.mk fds)

/-- The finding dict after narrative generation: `description` and
`root_cause` are optional because a parsed service response may omit
them. -/
structure Audit extends Finding where
  description : Option String := none
  root_cause : Option String := none
deriving DecidableEq, Repr

/-- `raw.get("hsn")` as rendered inside an f-string (`None` when the
raw bag is a cycle bag). -/
def RawFacts.hsnStr : RawFacts → String
  | .facts _ h _ => h
  | .cycle _ => "None"

/-- `raw.get("tax_rate")` as rendered inside an f-string. -/
def RawFacts.taxRateStr : RawFacts → String
  | .facts _ _ t => pyFloatStr t
  | .cycle _ => "None"

/-- The `desc` template dispatch of `rule_based_audit`. -/
def ruleDescription (m : Finding) : String :=
  if m.mismatch_type = "Amount Mismatch" then
    "Invoice " ++ m.inv_no ++ " has an amount discrepancy between GSTR-1 filed by "
      ++ m.supplier_gstin ++ " and GSTR-2B of " ++ m.buyer_gstin
      ++ ". Reported amount: " ++ fmtCurrency m.amount ++ "."
  else if m.mismatch_type = "Missing in GSTR-2B" then
    "Invoice " ++ m.inv_no ++ " reported by supplier " ++ m.supplier_gstin
      ++ " in GSTR-1 is completely absent in buyer " ++ m.buyer_gstin
      ++ "\x27s GSTR-2B auto-population."
  else if m.mismatch_type = "Invalid HSN Code" then
    "Invoice " ++ m.inv_no ++ " contains HSN code \x27" ++ m.raw.hsnStr
      ++ "\x27 which does not conform to the 4/6/8-digit standard format."
  else if m.mismatch_type = "Invalid Tax Rate" then
    "Invoice " ++ m.inv_no ++ " applies a tax rate of " ++ m.raw.taxRateStr
      ++ "% which is not a valid GST slab (0/5/12/18/28%)."
  else if m.mismatch_type = "Circular Transaction Pattern" then
    "A circular transaction loop was detected involving GSTINs: "
      ++ String.intercalate " → " m.traversal_path
      ++ ". Potential fraudulent ITC claim."
  else
    "Mismatch of type \x27" ++ m.mismatch_type ++ "\x27 detected on invoice "
      ++ m.inv_no ++ "."

/-- The `cause` template dispatch of `rule_based_audit`. -/
def ruleRootCause (m : Finding) : String :=
  if m.mismatch_type = "Amount Mismatch" then
    "Supplier likely made a manual data entry error in GSTR-1. The e-Invoice amount typically matches GSTR-2B."
  else if m.mismatch_type = "Missing in GSTR-2B" then
    "Buyer GSTIN was likely entered incorrectly by the supplier, preventing auto-population in GSTR-2B."
  else if m.mismatch_type = "Invalid HSN Code" then
    "Incorrect HSN mapping in supplier\x27s ERP or accounting software. Requires correction and revised GSTR-1 filing."
  else if m.mismatch_type = "Invalid Tax Rate" then
    "Product was miscategorised in the supplier\x27s system. Verify the correct HSN sub-category and applicable GST slab."
  else if m.mismatch_type = "Circular Transaction Pattern" then
    "Multiple taxpayers are issuing invoices to each other in a closed loop — a common pattern for fraudulent ITC claims."
  else
    "Manual investigation required to determine root cause."

/-- `rule_based_audit`: deterministic narrative fallback,
`\x7b**m, "description": desc, "root_cause": cause\x7d`. -/
def rule_based_audit (m : Finding) : Audit :=
  { toFinding := m, description := some (ruleDescription m),
    root_cause := some (ruleRootCause m) }

/-- Outcome of the external text-generation call, at the boundary of
the `try` block: any exception, timeout or malformed transport payload
is `err`; `ok text` is the stripped candidate text. -/
inductive ServiceOutcome where
  | err
  | ok (text : String)
deriving DecidableEq, Repr

/-- `re.search(r"\x7b.*\x7d", text, re.DOTALL)`: greedy match from the
first opening brace to the last closing brace after it. -/
def extractBraced (s : String) : Option String :=
  let cs := s.data
  match cs.findIdx? (· == '\x7b'), cs.reverse.findIdx? (· == '\x7d') with
  | some i, some k =>
      let j := cs.length - 1 - k
      if i < j then some (String.mk ((cs.drop i).take (j - i + 1))) else none
  | _, _ => none

/-- Drop leading ASCII whitespace, the `str.strip` character set. -/
def dropPyWs : List Char → List Char
  | [] => []
  | c :: cs =>
      if c == ' ' || c == '\t' || c == '\n' || c == '\r' || c == '\x0b' ||
          c == '\x0c' then dropPyWs cs
      else c :: cs

/-- `text.strip()`. -/
def pyStrip (s : String) : String :=
  String.mk ((dropPyWs (dropPyWs s.data).reverse).reverse)

def skipWs : List Char → List Char
  | [] => []
  | c :: cs =>
      if c == ' ' || c == '\n' || c == '\t' || c == '\r' then skipWs cs
      else c :: cs

/-- Characters of a JSON string up to the closing quote (escape
sequences are outside the model: they make the parse fail, which sends
`llm_audit` to its fallback). -/
def jsonStringChars : List Char → Option (List Char × List Char)
  | [] => none
  | c :: cs =>
      if c == '\"' then some ([], cs)
      else if c == '\\' then none
      else
        match jsonStringChars cs with
        | some (acc, rest) => some (c :: acc, rest)
        | none => none

/-- Members of a flat JSON object with string keys and string values,
up to and including the closing brace. -/
def parseMembers : Nat → List Char → Option (List (String × String) × List Char)
  | 0, _ => none
  | fuel + 1, cs =>
      match skipWs cs with
      | '\"' :: cs1 =>
          match jsonStringChars cs1 with
          | some (k, cs2) =>
              match skipWs cs2 with
              | ':' :: cs3 =>
                  match skipWs cs3 with
                  | '\"' :: cs4 =>
                      match jsonStringChars cs4 with
                      | some (v, cs5) =>
                          match skipWs cs5 with
                          | ',' :: cs6 =>
                              match parseMembers fuel cs6 with
                              | some (kvs, rest) =>
                                  some ((String.mk k, String.mk v) :: kvs, rest)
                              | none => none
                          | c :: cs6 =>
                              if c == '\x7d' then
                                some ([(String.mk k, String.mk v)], cs6)
                              else none
                          | [] => none
                      | none => none
                  | _ => none
              | _ => none
          | none => none
      | _ => none

/-- `json.loads` restricted to flat string-valued objects (everything
else fails the parse and falls back — richer values are outside the
service contract and outside this model). -/
def parseJsonObject (s : String) : Option (List (String × String)) :=
  match skipWs s.data with
  | [] => none
  | c :: cs =>
      if c == '\x7b' then
        match skipWs cs with
        | [] => none
        | d :: ds =>
            if d == '\x7d' then
              if (skipWs ds).isEmpty then some [] else none
            else
              match parseMembers (cs.length + 1) cs with
              | some (kvs, rest) =>
                  if (skipWs rest).isEmpty then some kvs else none
              | none => none
      else none

/-- `\x7b**m, **parsed\x7d` for the flat string objects the parser
models: a narrative key lands in the Audit options; other string-valued
finding fields may be overridden by the merge; list- and number-valued
fields keep the finding values. -/
def mergeParsed (m : Finding) (kvs : List (String × String)) : Audit :=
  { inv_no := (kvs.lookup "inv_no").getD m.inv_no
    supplier_gstin := (kvs.lookup "supplier_gstin").getD m.supplier_gstin
    buyer_gstin := (kvs.lookup "buyer_gstin").getD m.buyer_gstin
    amount := m.amount
    period := match kvs.lookup "period" with
      | some v => some v
      | none => m.period
    mismatch_type := (kvs.lookup "mismatch_type").getD m.mismatch_type
    severity := (kvs.lookup "severity").getD m.severity
    traversal_path := m.traversal_path
    raw := m.raw
    description := kvs.lookup "description"
    root_cause := kvs.lookup "root_cause" }

/-- `llm_audit`: skip the network attempt when no credential is
configured; otherwise strip the response text, extract the greedy
brace-delimited substring, parse it, and merge — every failure path
degrades to `rule_based_audit`. -/
def llm_audit (key : String) (resp : ServiceOutcome) (m : Finding) : Audit :=
  if key = "" then rule_based_audit m
  else
    match resp with
    | .err => rule_based_audit m
    | .ok text =>
        match extractBraced (pyStrip text) with
        | none => rule_based_audit m
        | some js =>
            match parseJsonObject js with
            | none => rule_based_audit m
            | some kvs => mergeParsed m kvs

/-! ### Persistence (`store_audit_entry`) and pipeline orchestration -/

/-- One persisted `AuditEntry` node. -/
structure AuditEntry where
  inv_no : String
  mismatch_type : String
  supplier_gstin : String
  buyer_gstin : String
  severity : String
  amount : ℚ
  period : Option String
  description : String
  root_cause : String
  traversal_path : String
  status : String
  created_at : Nat
deriving DecidableEq, Repr

/-- The attribute values one `SET` clause writes: every attribute from
the audit dict, narrative defaults `""`, the traversal path arrow-joined,
status unconditionally `flagged`. -/
def mkAuditEntry (a : Audit) (now : Nat) : AuditEntry :=
  { inv_no := a.inv_no, mismatch_type := a.mismatch_type,
    supplier_gstin := a.supplier_gstin, buyer_gstin := a.buyer_gstin,
    severity := a.severity, amount := a.amount, period := a.period,
    description := a.description.getD "", root_cause := a.root_cause.getD "",
    traversal_path := String.intercalate " → " a.traversal_path,
    status := "flagged", created_at := now }

/-- The `MERGE` pattern key: composite (invoice id, mismatch-type). -/
def entryKeyMatches (a : Audit) (e : AuditEntry) : Bool :=
  e.inv_no == a.inv_no && e.mismatch_type == a.mismatch_type

/-- `MERGE ... SET ...`: update every entry matching the composite key,
or create one. -/
def storeUpsert (s : List AuditEntry) (a : Audit) (now : Nat) :
    List AuditEntry :=
  if s.any (entryKeyMatches a) then
    s.map fun e => if entryKeyMatches a e then mkAuditEntry a now else e
  else s ++ [mkAuditEntry a now]

/-- `store_audit_entry` with its surrounding `try/except`: a write
failure is logged and leaves the store unchanged; the function always
returns. -/
def store_audit_entry (ok : Bool) (s : List AuditEntry) (a : Audit)
    (now : Nat) : List AuditEntry :=
  if ok then storeUpsert s a now else s

/-- The status-update endpoint's Cypher: set `status` on every entry
with the given invoice id. -/
def update_audit_status (s : List AuditEntry) (inv newStatus : String) :
    List AuditEntry :=
  s.map fun e => if e.inv_no == inv then { e with status := newStatus } else e

/-- The per-finding loop of `run_reconciliation_pipeline`: narrative
then immediate persistence, indexed oracles for the service outcome,
store success and timestamp.  Returns the final store, the generated
audits in order, and the composite keys whose persistence was
attempted. -/
def processFindings (key : String) (resp : Nat → ServiceOutcome)
    (storeOk : Nat → Bool) (now : Nat → Nat) :
    List Finding → Nat → List AuditEntry →
    List AuditEntry × List Audit × List (String × String)
  | [], _, s => (s, [], [])
  | m :: rest, i, s =>
      let a := llm_audit key (resp i) m
      let s' := store_audit_entry (storeOk i) s a (now i)
      let out := processFindings key resp storeOk now rest (i + 1) s'
      (out.1, a :: out.2.1, (a.inv_no, a.mismatch_type) :: out.2.2)

/-- `run_reconciliation_pipeline` beyond the snapshot step: detect, then
process every finding in detection order. -/
def run_reconciliation_pipeline (key : String) (resp : Nat → ServiceOutcome)
    (storeOk : Nat → Bool) (now : Nat → Nat) (s : List AuditEntry)
    (G : Graph) : List AuditEntry × List Audit × List (String × String) :=
  processFindings key resp storeOk now (detect_mismatches G) 0 s

/-! ### Graph snapshot builder (`build_networkx_graph`) -/

/-- One row of the builder's Cypher result: supplier, buyer and invoice
ids plus the invoice attributes (each possibly null in the store). -/
structure Row where
  supplier : String
  buyer : String
  inv_no : String
  amount : Option ℚ := none
  status : Option String := none
  hsn_code : Option String := none
  tax_rate : Option ℚ := none
  period : Option String := none
deriving DecidableEq, Repr

/-- NetworkX implicit node creation (no attributes). -/
def ensureNode (G : Graph) (n : String) : Graph :=
  if G.nodes.any (fun p => p.1 == n) then G
  else { G with nodes := G.nodes ++ [(n, {})] }

/-- `G.add_node(gstin, type="Taxpayer")`: merge the `type` attribute
into an existing node, or append a fresh node. -/
def setTaxpayer (G : Graph) (n : String) : Graph :=
  if G.nodes.any (fun p => p.1 == n) then
    { G with nodes := G.nodes.map fun p =>
        if p.1 == n then (p.1, { p.2 with typ := some "Taxpayer" }) else p }
  else { G with nodes := G.nodes ++ [(n, { typ := some "Taxpayer" })] }

def invoiceData (r : Row) : NodeData :=
  { typ := some "Invoice", amount := r.amount, status := r.status,
    hsn_code := r.hsn_code, tax_rate := r.tax_rate, period := r.period }

/-- `G.add_node(inv_no, type="Invoice", amount=..., ...)`: all six
attributes are written, so the merge replaces the whole bag. -/
def setInvoice (G : Graph) (r : Row) : Graph :=
  if G.nodes.any (fun p => p.1 == r.inv_no) then
    { G with nodes := G.nodes.map fun p =>
        if p.1 == r.inv_no then (p.1, invoiceData r) else p }
  else { G with nodes := G.nodes ++ [(r.inv_no, invoiceData r)] }

/-- `G.add_edge(u, v, rel=...)`: endpoints are created when missing;
re-adding an existing edge only updates its `rel` attribute in place. -/
def addEdgeNX (G : Graph) (u v rel : String) : Graph :=
  let G1 := ensureNode (ensureNode G u) v
  if G1.edges.any (fun e => e.1 == u && e.2.1 == v) then
    { G1 with edges := G1.edges.map fun e =>
        if e.1 == u && e.2.1 == v then (u, v, rel) else e }
  else { G1 with edges := G1.edges ++ [(u, v, rel)] }

/-- The loop body of `build_networkx_graph` for one query row. -/
def addRow (G : Graph) (r : Row) : Graph :=
  addEdgeNX
    (addEdgeNX (setInvoice (setTaxpayer (setTaxpayer G r.supplier) r.buyer) r)
      r.supplier r.inv_no "ISSUED")
    r.inv_no r.buyer "BILLED_TO"

/-- `build_networkx_graph`: materialize the snapshot row by row into a
fresh graph. -/
def build_networkx_graph (rows : List Row) : Graph :=
  rows.foldl addRow {}

/-! ### Concrete witness graph -/

/-- Invoice with status mismatch, 5-digit hsn, off-schedule tax rate. -/
def dW1 : NodeData :=
  { typ := some "Invoice", amount := some 1000, status := some "mismatch",
    hsn_code := some "12345", tax_rate := some 15, period := some "2024-01" }

/-- Invoice with status missing, valid hsn and rate. -/
def dW2 : NodeData :=
  { typ := some "Invoice", amount := some 500, status := some "missing",
    hsn_code := some "1234", tax_rate := some 18, period := some "2024-01" }

/-- Matched invoice with hsn `"nan"` and zero rate. -/
def dW3 : NodeData :=
  { typ := some "Invoice", amount := some 200, status := some "matched",
    hsn_code := some "nan", tax_rate := some 0, period := some "2024-01" }

/-- Two taxpayers invoicing each other (a taxpayer 2-cycle), plus a
matched invoice. -/
def Gw : Graph :=
  { nodes := [("29ABC", { typ := some "Taxpayer" }),
      ("29XYZ", { typ := some "Taxpayer" }),
      ("INV-1", dW1), ("INV-2", dW2), ("INV-3", dW3)],
    edges := [("29ABC", "INV-1", "ISSUED"), ("INV-1", "29XYZ", "BILLED_TO"),
      ("29XYZ", "INV-2", "ISSUED"), ("INV-2", "29ABC", "BILLED_TO"),
      ("29ABC", "INV-3", "ISSUED"), ("INV-3", "29XYZ", "BILLED_TO")] }

/-- The `Amount Mismatch` finding detection emits for `INV-1` in the
concrete graph. -/
def fW : Finding :=
  ⟨"INV-1", "29ABC", "29XYZ", 1000, some "2024-01", "Amount Mismatch", "high",
    ["Invoice Node", "GSTR-1 Filing", "Supplier GSTIN", "GSTR-2B Cross-Ref",
     "Buyer GSTIN"], RawFacts.facts (some "mismatch") "12345" 15⟩

/-! ### Helper lemmas about detection -/

lemma countP_flatMap {α β : Type} (p : β → Bool) (f : α → List β) (l : List α) :
    List.countP p (l.flatMap f) = (l.map fun a => List.countP p (f a)).sum := by
  induction l with
  | nil => rfl
  | cons a l ih => simp [List.countP_append, ih]

/-- In a key-unique association list, a function that vanishes away from
key `n` sums to its value at the unique entry for `n`. -/
lemma sum_map_eq_single {β : Type} (l : List (String × β))
    (hk : (l.map Prod.fst).Nodup) (n : String) (d : β) (hmem : (n, d) ∈ l)
    (g : String × β → Nat) (h0 : ∀ x ∈ l, x.1 ≠ n → g x = 0) :
    (l.map g).sum = g (n, d) := by
  induction l with
  | nil => cases hmem
  | cons x l ih =>
    simp only [List.map_cons, List.nodup_cons] at hk
    obtain ⟨hx, hl⟩ := hk
    by_cases hxn : x.1 = n
    · have hxd : x = (n, d) := by
        rcases List.mem_cons.1 hmem with h | h
        · exact h.symm
        · exact absurd (hxn ▸ List.mem_map_of_mem Prod.fst h) hx
      have hz : (l.map g).sum = 0 := by
        apply List.sum_eq_zero
        intro m hm
        rcases List.mem_map.1 hm with ⟨y, hy, rfl⟩
        exact h0 y (List.mem_cons_of_mem x hy)
          (fun hyn => hx (hxn ▸ hyn ▸ List.mem_map_of_mem Prod.fst hy))
      simp [hxd, hz]
    · have hmem' : (n, d) ∈ l := by
        rcases List.mem_cons.1 hmem with h | h
        · exact absurd (congrArg Prod.fst h.symm) hxn
        · exact h
      have := ih hl hmem' (fun y hy => h0 y (List.mem_cons_of_mem x hy))
      simp [h0 x (List.mem_cons_self x l) hxn, this]

/-- Shape of every finding emitted by checks 1–4 for one invoice node. -/
lemma mem_invoiceChecks {n : String} {d : NodeData} {s b : String} {f : Finding}
    (h : f ∈ invoiceChecks n d s b) :
    f.inv_no = n ∧
    (f.mismatch_type = "Amount Mismatch" ∨ f.mismatch_type = "Missing in GSTR-2B" ∨
      f.mismatch_type = "Invalid HSN Code" ∨ f.mismatch_type = "Invalid Tax Rate") ∧
    ((f.mismatch_type = "Amount Mismatch" ∨ f.mismatch_type = "Missing in GSTR-2B") →
      f.severity = "high") ∧
    ((f.mismatch_type = "Invalid HSN Code" ∨ f.mismatch_type = "Invalid Tax Rate") →
      f.severity = "medium") := by
  simp only [invoiceChecks, List.mem_append] at h
  rcases h with (h | h) | h <;> split_ifs at h <;>
    simp only [List.mem_singleton, List.not_mem_nil] at h <;> subst h <;> simp

lemma cycleFinding_eq_some {G : Graph} {c : List String} {f : Finding}
    (h : cycleFinding G c = some f) :
    2 ≤ (taxpayersOf G c).length ∧
    f = ⟨"CIRCULAR-PATTERN", (taxpayersOf G c).headD "",
      (taxpayersOf G c).getLastD "", 0, some "N/A",
      "Circular Transaction Pattern", "high", taxpayersOf G c,
      RawFacts.cycle (taxpayersOf G c)⟩ := by
  simp only [cycleFinding] at h
  split_ifs at h with h2
  exact ⟨h2, (Option.some_inj.1 h).symm⟩

lemma mem_cycleFindings {G : Graph} {f : Finding} (h : f ∈ cycleFindings G) :
    f.mismatch_type = "Circular Transaction Pattern" ∧ f.severity = "high" := by
  obtain ⟨c, _, he⟩ := List.mem_filterMap.1 h
  rcases cycleFinding_eq_some he with ⟨-, rfl⟩
  exact ⟨rfl, rfl⟩

/-- Per-invoice count of any non-circular mismatch type reduces to the
count over that single node's checks. -/
lemma countP_detect_invoice (G : Graph) (hwf : G.Wf) (n : String) (d : NodeData)
    (hmem : (n, d) ∈ G.nodes) (hinv : d.typ = some "Invoice") (T : String)
    (hT : T ≠ "Circular Transaction Pattern") :
    (detect_mismatches G).countP
        (fun f => decide (f.inv_no = n ∧ f.mismatch_type = T)) =
      (invoiceChecks n d ((G.predecessors n).headD "UNKNOWN")
          ((G.successors n).headD "UNKNOWN")).countP
        (fun f => decide (f.inv_no = n ∧ f.mismatch_type = T)) := by
  set p : Finding → Bool := fun f => decide (f.inv_no = n ∧ f.mismatch_type = T)
    with hp
  have hcyc : (cycleFindings G).countP p = 0 := by
    rw [List.countP_eq_zero]
    intro f hf
    rcases mem_cycleFindings hf with ⟨ht, -⟩
    simp only [hp, ht, decide_eq_true_eq, not_and]
    exact fun _ h => hT h.symm
  have hother : ∀ x ∈ G.nodes, x.1 ≠ n → (nodeFindings G x).countP p = 0 := by
    intro x _ hxn
    rw [List.countP_eq_zero]
    intro f hf
    unfold nodeFindings at hf
    split_ifs at hf
    · rcases mem_invoiceChecks hf with ⟨hi, -, -, -⟩
      simp [hp, hi, hxn]
    · cases hf
  rw [detect_mismatches, List.countP_append, hcyc, countP_flatMap,
    sum_map_eq_single G.nodes hwf.1 n d hmem _ hother]
  unfold nodeFindings
  simp [hinv]

/-- C1-count for one node: check 1 emits exactly when status is
`mismatch`. -/
lemma countP_invoiceChecks_amount (n : String) (d : NodeData) (s b : String) :
    (invoiceChecks n d s b).countP
        (fun f => decide (f.inv_no = n ∧ f.mismatch_type = "Amount Mismatch")) =
      if d.status = some "mismatch" then 1 else 0 := by
  simp only [invoiceChecks]
  split_ifs <;> simp_all [List.countP_append, List.countP_cons]

lemma countP_invoiceChecks_missing (n : String) (d : NodeData) (s b : String) :
    (invoiceChecks n d s b).countP
        (fun f => decide (f.inv_no = n ∧ f.mismatch_type = "Missing in GSTR-2B")) =
      if d.status ≠ some "mismatch" ∧ d.status = some "missing" then 1 else 0 := by
  simp only [invoiceChecks]
  split_ifs <;> simp_all [List.countP_append, List.countP_cons]

lemma countP_invoiceChecks_hsn (n : String) (d : NodeData) (s b : String) :
    (invoiceChecks n d s b).countP
        (fun f => decide (f.inv_no = n ∧ f.mismatch_type = "Invalid HSN Code")) =
      if d.hsn_code.getD "" ≠ "" ∧ d.hsn_code.getD "" ∉ (["", "nan"] : List String) ∧
          (d.hsn_code.getD "").length ∉ ([4, 6, 8] : List Nat) then 1 else 0 := by
  simp only [invoiceChecks]
  split_ifs <;> simp_all [List.countP_append, List.countP_cons]

lemma countP_invoiceChecks_rate (n : String) (d : NodeData) (s b : String) :
    (invoiceChecks n d s b).countP
        (fun f => decide (f.inv_no = n ∧ f.mismatch_type = "Invalid Tax Rate")) =
      if d.tax_rate.getD 0 ≠ 0 ∧ d.tax_rate.getD 0 ∉ VALID_TAX_RATES
        then 1 else 0 := by
  simp only [invoiceChecks]
  split_ifs <;> simp_all [List.countP_append, List.countP_cons]

/-- Severity facts for every finding detection can emit. -/
lemma detect_severity (G : Graph) {f : Finding} (h : f ∈ detect_mismatches G) :
    (f.severity = "high" ∨ f.severity = "medium") ∧
    ((f.mismatch_type = "Amount Mismatch" ∨ f.mismatch_type = "Missing in GSTR-2B" ∨
        f.mismatch_type = "Circular Transaction Pattern") → f.severity = "high") ∧
    ((f.mismatch_type = "Invalid HSN Code" ∨ f.mismatch_type = "Invalid Tax Rate") →
      f.severity = "medium") := by
  rcases List.mem_append.1 h with hf | hf
  · obtain ⟨x, _, hfx⟩ := List.mem_flatMap.1 hf
    unfold nodeFindings at hfx
    split_ifs at hfx
    · rcases mem_invoiceChecks hfx with ⟨-, ht4, hhi, hmed⟩
      refine ⟨?_, ?_, hmed⟩
      · rcases ht4 with h' | h' | h' | h'
        exacts [Or.inl (hhi (Or.inl h')), Or.inl (hhi (Or.inr h')),
          Or.inr (hmed (Or.inl h')), Or.inr (hmed (Or.inr h'))]
      · intro hA
        rcases hA with h' | h' | h'
        · exact hhi (Or.inl h')
        · exact hhi (Or.inr h')
        · rcases ht4 with h'' | h'' | h'' | h'' <;> simp_all
    · cases hfx
  · rcases mem_cycleFindings hf with ⟨ht, hs⟩
    refine ⟨Or.inl hs, fun _ => hs, fun hc => ?_⟩
    rcases hc with h' | h' <;> simp_all

/-! ### Claim theorems C1, C4, C5, C10 -/

/-- C1: every Invoice node yields exactly one `Amount Mismatch` finding
(severity `high`) precisely when its status is `"mismatch"`, exactly one
`Missing in GSTR-2B` finding (severity `high`) precisely when its status
is `"missing"`, and never both — the missing check is the `elif` of the
amount check. -/
theorem claim_C1 (G : Graph) (hwf : G.Wf) (n : String) (d : NodeData)
    (hmem : (n, d) ∈ G.nodes) (hinv : d.typ = some "Invoice") :
    ((detect_mismatches G).countP
        (fun f => decide (f.inv_no = n ∧ f.mismatch_type = "Amount Mismatch")) =
      if d.status = some "mismatch" then 1 else 0) ∧
    ((detect_mismatches G).countP
        (fun f => decide (f.inv_no = n ∧ f.mismatch_type = "Missing in GSTR-2B")) =
      if d.status = some "missing" then 1 else 0) ∧
    (∀ f ∈ detect_mismatches G,
      (f.mismatch_type = "Amount Mismatch" ∨ f.mismatch_type = "Missing in GSTR-2B") →
      f.severity = "high") ∧
    ¬((1 ≤ (detect_mismatches G).countP
          (fun f => decide (f.inv_no = n ∧ f.mismatch_type = "Amount Mismatch"))) ∧
      (1 ≤ (detect_mismatches G).countP
          (fun f => decide (f.inv_no = n ∧ f.mismatch_type = "Missing in GSTR-2B")))) := by
  have hA := (countP_detect_invoice G hwf n d hmem hinv "Amount Mismatch"
    (by decide)).trans (countP_invoiceChecks_amount n d _ _)
  have hM := (countP_detect_invoice G hwf n d hmem hinv "Missing in GSTR-2B"
    (by decide)).trans (countP_invoiceChecks_missing n d _ _)
  have hMiff : (d.status ≠ some "mismatch" ∧ d.status = some "missing") ↔
      d.status = some "missing" := by
    constructor
    · exact fun h => h.2
    · intro h
      refine ⟨fun hc => ?_, h⟩
      rw [h] at hc
      simp at hc
  have hM' : (detect_mismatches G).countP
      (fun f => decide (f.inv_no = n ∧ f.mismatch_type = "Missing in GSTR-2B")) =
      if d.status = some "missing" then 1 else 0 := by
    rw [hM]
    exact if_congr hMiff rfl rfl
  refine ⟨hA, hM', fun f hf ht => ((detect_severity G hf).2.1 ?_), ?_⟩
  · rcases ht with h' | h'
    · exact Or.inl h'
    · exact Or.inr (Or.inl h')
  · rintro ⟨h1, h2⟩
    rw [hA] at h1
    rw [hM'] at h2
    by_cases hs : d.status = some "mismatch"
    · rw [if_pos hs] at h1
      rw [if_neg (by simp [hs])] at h2
      omega
    · rw [if_neg hs] at h1
      omega

/-- C4: independently of status, an Invoice node yields the
`Invalid HSN Code` finding (severity `medium`) exactly when its
(defaulted) hsn code is non-empty, not the literal `"nan"`, and of
length other than 4, 6 or 8. -/
theorem claim_C4 (G : Graph) (hwf : G.Wf) (n : String) (d : NodeData)
    (hmem : (n, d) ∈ G.nodes) (hinv : d.typ = some "Invoice") :
    ((detect_mismatches G).countP
        (fun f => decide (f.inv_no = n ∧ f.mismatch_type = "Invalid HSN Code")) =
      if d.hsn_code.getD "" ≠ "" ∧ d.hsn_code.getD "" ≠ "nan" ∧
          ¬((d.hsn_code.getD "").length = 4 ∨ (d.hsn_code.getD "").length = 6 ∨
            (d.hsn_code.getD "").length = 8) then 1 else 0) ∧
    (∀ f ∈ detect_mismatches G, f.mismatch_type = "Invalid HSN Code" →
      f.severity = "medium") := by
  have hH := (countP_detect_invoice G hwf n d hmem hinv "Invalid HSN Code"
    (by decide)).trans (countP_invoiceChecks_hsn n d _ _)
  refine ⟨hH.trans (if_congr ?_ rfl rfl),
    fun f hf ht => (detect_severity G hf).2.2 (Or.inl ht)⟩
  constructor
  · rintro ⟨h1, h2, h3⟩
    refine ⟨h1, fun hc => h2 (by simp [hc]), fun hc => h3 (by simpa using hc)⟩
  · rintro ⟨h1, h2, h3⟩
    refine ⟨h1, ?_, by simpa using h3⟩
    simp only [List.mem_cons, List.not_mem_nil]
    rintro (hc | hc | hc)
    · exact h1 hc
    · exact h2 hc
    · exact hc

/-- C5: independently, an Invoice node yields the `Invalid Tax Rate`
finding (severity `medium`) exactly when its (defaulted) tax rate is
nonzero and not in `VALID_TAX_RATES`. -/
theorem claim_C5 (G : Graph) (hwf : G.Wf) (n : String) (d : NodeData)
    (hmem : (n, d) ∈ G.nodes) (hinv : d.typ = some "Invoice") :
    ((detect_mismatches G).countP
        (fun f => decide (f.inv_no = n ∧ f.mismatch_type = "Invalid Tax Rate")) =
      if d.tax_rate.getD 0 ≠ 0 ∧ d.tax_rate.getD 0 ∉ VALID_TAX_RATES
        then 1 else 0) ∧
    (∀ f ∈ detect_mismatches G, f.mismatch_type = "Invalid Tax Rate" →
      f.severity = "medium") :=
  ⟨(countP_detect_invoice G hwf n d hmem hinv "Invalid Tax Rate"
      (by decide)).trans (countP_invoiceChecks_rate n d _ _),
    fun f hf ht => (detect_severity G hf).2.2 (Or.inr ht)⟩

/-- C10: every finding detection emits has severity `"high"` or
`"medium"`; the `"low"` tag of the data model is never produced. -/
theorem claim_C10 (G : Graph) (f : Finding) (h : f ∈ detect_mismatches G) :
    f.severity = "high" ∨ f.severity = "medium" :=
  (detect_severity G h).1

/-- C1 at the concrete graph: the mismatch invoice yields exactly one
`Amount Mismatch` and no `Missing in GSTR-2B`. -/
theorem claim_C1_witness :
    Gw.Wf ∧
    (detect_mismatches Gw).countP
        (fun f => decide (f.inv_no = "INV-1" ∧
          f.mismatch_type = "Amount Mismatch")) = 1 ∧
    (detect_mismatches Gw).countP
        (fun f => decide (f.inv_no = "INV-1" ∧
          f.mismatch_type = "Missing in GSTR-2B")) = 0 := by
  have h := claim_C1 Gw (by decide) "INV-1" dW1 (by decide) (by decide)
  exact ⟨by decide, h.1.trans (by decide), h.2.1.trans (by decide)⟩

/-- C4 at the concrete graph: hsn length 5 fires despite status
`mismatch`; hsn `"nan"` never fires. -/
theorem claim_C4_witness :
    (detect_mismatches Gw).countP
        (fun f => decide (f.inv_no = "INV-1" ∧
          f.mismatch_type = "Invalid HSN Code")) = 1 ∧
    (detect_mismatches Gw).countP
        (fun f => decide (f.inv_no = "INV-3" ∧
          f.mismatch_type = "Invalid HSN Code")) = 0 := by
  have h1 := claim_C4 Gw (by decide) "INV-1" dW1 (by decide) (by decide)
  have h3 := claim_C4 Gw (by decide) "INV-3" dW3 (by decide) (by decide)
  exact ⟨h1.1.trans (by decide), h3.1.trans (by decide)⟩

/-- C5 at the concrete graph: rate 15 fires, rate 18 and rate 0 do
not. -/
theorem claim_C5_witness :
    (detect_mismatches Gw).countP
        (fun f => decide (f.inv_no = "INV-1" ∧
          f.mismatch_type = "Invalid Tax Rate")) = 1 ∧
    (detect_mismatches Gw).countP
        (fun f => decide (f.inv_no = "INV-2" ∧
          f.mismatch_type = "Invalid Tax Rate")) = 0 ∧
    (detect_mismatches Gw).countP
        (fun f => decide (f.inv_no = "INV-3" ∧
          f.mismatch_type = "Invalid Tax Rate")) = 0 := by
  have h1 := claim_C5 Gw (by decide) "INV-1" dW1 (by decide) (by decide)
  have h2 := claim_C5 Gw (by decide) "INV-2" dW2 (by decide) (by decide)
  have h3 := claim_C5 Gw (by decide) "INV-3" dW3 (by decide) (by decide)
  exact ⟨h1.1.trans (by decide), h2.1.trans (by decide), h3.1.trans (by decide)⟩

/-- C10 at a concrete emitted finding. -/
theorem claim_C10_witness : fW.severity = "high" ∨ fW.severity = "medium" :=
  claim_C10 Gw fW (by decide)

/-! ### Simple-cycle enumeration: soundness, completeness, uniqueness -/

/-- Everything `cyclePaths` returns is a duplicate-free path inside
`allowed`, chained by edges from `cur` and closing back to `start`. -/
lemma cyclePaths_sound (G : Graph) (start : String) :
    ∀ (fuel : Nat) (allowed : List String) (cur : String) (p : List String),
      allowed.length < fuel → allowed.Nodup →
      p ∈ cyclePaths G start fuel cur allowed →
      p.Nodup ∧ (∀ u ∈ p, u ∈ allowed) ∧
      List.Chain (fun a b => G.hasEdge a b = true) cur p ∧
      G.hasEdge (p.getLastD cur) start = true := by
  intro fuel
  induction fuel with
  | zero =>
    intro allowed cur p hlt _ _
    exact absurd hlt (Nat.not_lt_zero _)
  | succ fuel ih =>
    intro allowed cur p hlt hnd hp
    simp only [cyclePaths, List.mem_append] at hp
    rcases hp with hp | hp
    · split_ifs at hp with he
      · simp only [List.mem_singleton] at hp
        subst hp
        exact ⟨List.nodup_nil, by simp, List.Chain.nil, he⟩
      · exact absurd hp (List.not_mem_nil p)
    · rw [List.mem_flatMap] at hp
      obtain ⟨y, hy, hmem⟩ := hp
      split_ifs at hmem with he
      · rw [List.mem_map] at hmem
        obtain ⟨q, hq, rfl⟩ := hmem
        have hpos : 0 < allowed.length := List.length_pos.2 (List.ne_nil_of_mem hy)
        have hlen : (allowed.erase y).length < fuel := by
          have := List.length_erase_add_one hy
          omega
        obtain ⟨h1, h2, h3, h4⟩ := ih (allowed.erase y) y q hlen (hnd.erase y) hq
        refine ⟨List.nodup_cons.2 ⟨fun hyq => hnd.not_mem_erase (h2 y hyq), h1⟩,
          ?_, List.chain_cons.2 ⟨he, h3⟩, ?_⟩
        · intro u hu
          rcases List.mem_cons.1 hu with rfl | hu
          · exact hy
          · exact List.mem_of_mem_erase (h2 u hu)
        · rw [List.getLastD_cons]
          exact h4
      · exact absurd hmem (List.not_mem_nil _)

/-- Conversely, every duplicate-free closed path inside `allowed` is
returned by `cyclePaths`. -/
lemma cyclePaths_complete (G : Graph) (start : String) :
    ∀ (fuel : Nat) (allowed : List String) (cur : String) (p : List String),
      allowed.length < fuel → p.Nodup → (∀ u ∈ p, u ∈ allowed) →
      List.Chain (fun a b => G.hasEdge a b = true) cur p →
      G.hasEdge (p.getLastD cur) start = true →
      p ∈ cyclePaths G start fuel cur allowed := by
  intro fuel
  induction fuel with
  | zero =>
    intro allowed cur p hlt _ _ _ _
    exact absurd hlt (Nat.not_lt_zero _)
  | succ fuel ih =>
    intro allowed cur p hlt hnd hsub hch hwrap
    simp only [cyclePaths, List.mem_append]
    cases p with
    | nil =>
      left
      simp only [List.getLastD_nil] at hwrap
      simp [hwrap]
    | cons y q =>
      right
      rw [List.mem_flatMap]
      refine ⟨y, hsub y (List.mem_cons_self y q), ?_⟩
      have hcy : G.hasEdge cur y = true := (List.chain_cons.1 hch).1
      rw [if_pos hcy, List.mem_map]
      refine ⟨q, ?_, rfl⟩
      have hynq : y ∉ q := (List.nodup_cons.1 hnd).1
      apply ih
      · have := List.length_erase_add_one (hsub y (List.mem_cons_self y q))
        omega
      · exact (List.nodup_cons.1 hnd).2
      · intro u hu
        refine (List.mem_erase_of_ne fun h => ?_).2
          (hsub u (List.mem_cons_of_mem y hu))
        subst h
        exact hynq hu
      · exact (List.chain_cons.1 hch).2
      · rw [List.getLastD_cons] at hwrap
        exact hwrap

/-- Membership in a drop, phrased through `indexOf`, for duplicate-free
lists. -/
lemma mem_drop_iff_indexOf {V : List String} (hV : V.Nodup) (i : Nat)
    (u : String) : u ∈ V.drop (i + 1) ↔ u ∈ V ∧ i < V.indexOf u := by
  constructor
  · intro h
    obtain ⟨j, hj, hju⟩ := List.mem_iff_getElem.1 h
    rw [List.length_drop] at hj
    rw [List.getElem_drop] at hju
    refine ⟨hju ▸ List.getElem_mem _, ?_⟩
    have := List.indexOf_getElem hV (i + 1 + j) (by omega)
    rw [hju] at this
    omega
  · rintro ⟨hu, hi⟩
    have hlt : V.indexOf u < V.length := List.indexOf_lt_length.2 hu
    have hk : V.indexOf u - (i + 1) < (V.drop (i + 1)).length := by
      rw [List.length_drop]; omega
    have : (V.drop (i + 1))[V.indexOf u - (i + 1)] = u := by
      rw [List.getElem_drop]
      have harith : i + 1 + (V.indexOf u - (i + 1)) = V.indexOf u := by omega
      simp only [harith]
      exact List.getElem_indexOf hlt
    exact this ▸ List.getElem_mem _

/-- One simple directed cycle, in the canonical rotation the enumeration
uses: a nonempty duplicate-free node list, chained by edges and closed
by an edge from its last node back to its head, whose head comes
earliest in node insertion order. -/
def IsCycleRep (G : Graph) (c : List String) : Prop :=
  ∃ v p, c = v :: p ∧ v ∈ G.nodeKeys ∧ (v :: p).Nodup ∧
    (∀ u ∈ p, u ∈ G.nodeKeys) ∧
    List.Chain (fun a b => G.hasEdge a b = true) v p ∧
    G.hasEdge (p.getLastD v) v = true ∧
    ∀ u ∈ p, G.nodeKeys.indexOf v < G.nodeKeys.indexOf u

/-- The enumeration returns exactly the canonical simple cycles. -/
lemma mem_simpleCycles {G : Graph} (hwf : G.Wf) (c : List String) :
    c ∈ G.simpleCycles ↔ IsCycleRep G c := by
  have hV : G.nodeKeys.Nodup := hwf.1
  constructor
  · intro h
    simp only [Graph.simpleCycles, List.mem_flatMap, List.mem_range,
      List.mem_map] at h
    obtain ⟨i, hi, p, hp, hc⟩ := h
    rw [List.getD_eq_getElem G.nodeKeys "" hi] at hp hc
    obtain ⟨h1, h2, h3, h4⟩ := cyclePaths_sound G _ _ _ _ _
      (Nat.lt_succ_self _) (List.Nodup.sublist (List.drop_sublist _ _) hV) hp
    have hidx : G.nodeKeys.indexOf G.nodeKeys[i] = i :=
      List.indexOf_getElem hV i hi
    refine ⟨G.nodeKeys[i], p, hc.symm, List.getElem_mem hi, ?_, ?_, h3, h4, ?_⟩
    · refine List.nodup_cons.2 ⟨fun hvp => ?_, h1⟩
      have := ((mem_drop_iff_indexOf hV i _).1 (h2 _ hvp)).2
      omega
    · exact fun u hu => List.mem_of_mem_drop (h2 u hu)
    · intro u hu
      have := ((mem_drop_iff_indexOf hV i u).1 (h2 u hu)).2
      omega
  · rintro ⟨v, p, rfl, hv, hnd, hsub, hch, hwrap, hidx⟩
    have hlt : G.nodeKeys.indexOf v < G.nodeKeys.length :=
      List.indexOf_lt_length.2 hv
    simp only [Graph.simpleCycles, List.mem_flatMap, List.mem_range,
      List.mem_map]
    refine ⟨G.nodeKeys.indexOf v, hlt, p, ?_, ?_⟩
    · apply cyclePaths_complete G _ _ _ _ _ (Nat.lt_succ_self _)
        (List.nodup_cons.1 hnd).2
      · intro u hu
        exact (mem_drop_iff_indexOf hV _ u).2 ⟨hsub u hu, hidx u hu⟩
      · rw [List.getD_eq_getElem G.nodeKeys "" hlt, List.getElem_indexOf hlt]
        exact hch
      · rw [List.getD_eq_getElem G.nodeKeys "" hlt, List.getElem_indexOf hlt]
        exact hwrap
    · rw [List.getD_eq_getElem G.nodeKeys "" hlt, List.getElem_indexOf hlt]

/-- A `flatMap` whose branches are duplicate-free and tagged by distinct
heads is duplicate-free. -/
lemma nodup_flatMap_keyed {α : Type} (l : List α) (f : α → List (List String))
    (key : α → String) (hl : l.Nodup)
    (hinj : ∀ a ∈ l, ∀ b ∈ l, key a = key b → a = b)
    (hnd : ∀ a ∈ l, (f a).Nodup)
    (hhead : ∀ a ∈ l, ∀ q ∈ f a, ∃ t, q = key a :: t) :
    (l.flatMap f).Nodup := by
  induction l with
  | nil => simp
  | cons a l ih =>
    rw [List.flatMap_cons, List.nodup_append]
    obtain ⟨hal, hl'⟩ := List.nodup_cons.1 hl
    refine ⟨hnd a (List.mem_cons_self a l), ih hl'
      (fun x hx y hy h => hinj x (List.mem_cons_of_mem a hx) y
        (List.mem_cons_of_mem a hy) h)
      (fun x hx => hnd x (List.mem_cons_of_mem a hx))
      (fun x hx q hq => hhead x (List.mem_cons_of_mem a hx) q hq), ?_⟩
    intro q hqa hql
    obtain ⟨b, hb, hqb⟩ := List.mem_flatMap.1 hql
    obtain ⟨t, rfl⟩ := hhead a (List.mem_cons_self a l) q hqa
    obtain ⟨t', ht'⟩ := hhead b (List.mem_cons_of_mem a hb) (key a :: t) hqb
    injection ht' with hk _
    exact hal (hinj a (List.mem_cons_self a l) b (List.mem_cons_of_mem a hb) hk ▸ hb)

lemma cyclePaths_nodup (G : Graph) (start : String) :
    ∀ (fuel : Nat) (allowed : List String) (cur : String),
      allowed.length < fuel → allowed.Nodup →
      (cyclePaths G start fuel cur allowed).Nodup := by
  intro fuel
  induction fuel with
  | zero =>
    intro allowed cur hlt _
    exact absurd hlt (Nat.not_lt_zero _)
  | succ fuel ih =>
    intro allowed cur hlt hnd
    simp only [cyclePaths]
    rw [List.nodup_append]
    refine ⟨by split_ifs <;> simp, ?_, ?_⟩
    · refine nodup_flatMap_keyed allowed _ id hnd (fun a _ b _ h => h) ?_ ?_
      · intro y hy
        split_ifs with he
        · refine List.Nodup.map (fun p q h => ?_) ?_
          · injection h
          · have hpos : 0 < allowed.length := List.length_pos.2 (List.ne_nil_of_mem hy)
            have := List.length_erase_add_one hy
            exact ih (allowed.erase y) y (by omega) (hnd.erase y)
        · simp
      · intro y _ q hq
        split_ifs at hq with he
        · obtain ⟨t, _, rfl⟩ := List.mem_map.1 hq
          exact ⟨t, rfl⟩
        · exact absurd hq (List.not_mem_nil _)
    · intro q hq1 hq2
      split_ifs at hq1 with he
      · simp only [List.mem_singleton] at hq1
        subst hq1
        obtain ⟨y, _, hq⟩ := List.mem_flatMap.1 hq2
        split_ifs at hq with he2
        · obtain ⟨t, _, heq⟩ := List.mem_map.1 hq
          exact absurd heq (by simp)
        · exact absurd hq (List.not_mem_nil _)
      · exact absurd hq1 (List.not_mem_nil _)

lemma simpleCycles_nodup (G : Graph) (hwf : G.Wf) : G.simpleCycles.Nodup := by
  have hV := hwf.1
  refine nodup_flatMap_keyed (List.range G.nodeKeys.length) _
    (fun i => G.nodeKeys.getD i "") (List.nodup_range _) ?_ ?_ ?_
  · intro a ha b hb h
    rw [List.mem_range] at ha hb
    have h' : G.nodeKeys.getD a "" = G.nodeKeys.getD b "" := h
    rw [List.getD_eq_getElem _ _ ha, List.getD_eq_getElem _ _ hb] at h'
    have h2 := congrArg (fun u => G.nodeKeys.indexOf u) h'
    simp only [List.indexOf_getElem hV a ha, List.indexOf_getElem hV b hb] at h2
    exact h2
  · intro i hi
    rw [List.mem_range] at hi
    refine List.Nodup.map (fun p q h => ?_) ?_
    · injection h
    · exact cyclePaths_nodup G _ _ _ _ (Nat.lt_succ_self _)
        (List.Nodup.sublist (List.drop_sublist _ _) hV)
  · intro i _ q hq
    obtain ⟨t, _, rfl⟩ := List.mem_map.1 hq
    exact ⟨t, rfl⟩

/-- The circular count over cycle findings equals the number of
enumerated cycles with at least two taxpayers. -/
lemma countP_circ_cycleFindings (G : Graph) :
    (cycleFindings G).countP
        (fun f => decide (f.mismatch_type = "Circular Transaction Pattern")) =
      G.simpleCycles.countP
        (fun c => decide (2 ≤ (taxpayersOf G c).length)) := by
  unfold cycleFindings
  induction G.simpleCycles with
  | nil => rfl
  | cons c cs ih =>
    rw [List.filterMap_cons, List.countP_cons]
    cases hc : cycleFinding G c with
    | none =>
      have h2 : ¬2 ≤ (taxpayersOf G c).length := by
        intro h
        simp [cycleFinding, h] at hc
      simp [ih, h2]
    | some f =>
      rcases cycleFinding_eq_some hc with ⟨h2, rfl⟩
      simp [List.countP_cons, ih, h2]

/-- C2: the enumeration yields exactly the simple directed cycles, each
once; each cycle whose taxpayer subsequence has at least two distinct
entries contributes exactly one `Circular Transaction Pattern` finding
(severity `high`, `inv_no` `"CIRCULAR-PATTERN"`, amount 0, supplier the
first taxpayer on the cycle, buyer the last, traversal path the full
taxpayer subsequence); a self-loop or a cycle with fewer than two
distinct taxpayers contributes none. -/
theorem claim_C2 (G : Graph) (hwf : G.Wf) :
    (∀ c, c ∈ G.simpleCycles ↔ IsCycleRep G c) ∧
    G.simpleCycles.Nodup ∧
    (∀ c ∈ G.simpleCycles, (taxpayersOf G c).Nodup) ∧
    (∀ c ∈ G.simpleCycles, 2 ≤ (taxpayersOf G c).dedup.length →
      cycleFinding G c = some (circularFindingOf G c) ∧
      circularFindingOf G c ∈ detect_mismatches G) ∧
    (∀ c ∈ G.simpleCycles, (taxpayersOf G c).dedup.length < 2 →
      cycleFinding G c = none) ∧
    (detect_mismatches G).countP
        (fun f => decide (f.mismatch_type = "Circular Transaction Pattern")) =
      G.simpleCycles.countP
        (fun c => decide (2 ≤ (taxpayersOf G c).dedup.length)) := by
  have htp : ∀ c ∈ G.simpleCycles, (taxpayersOf G c).Nodup := by
    intro c hc
    obtain ⟨v, p, rfl, -, hnd, -⟩ := (mem_simpleCycles hwf c).1 hc
    exact hnd.filter _
  have hdedup : ∀ c ∈ G.simpleCycles,
      (taxpayersOf G c).dedup = taxpayersOf G c :=
    fun c hc => List.dedup_eq_self.2 (htp c hc)
  refine ⟨mem_simpleCycles hwf, simpleCycles_nodup G hwf, htp, ?_, ?_, ?_⟩
  · intro c hc hlen
    rw [hdedup c hc] at hlen
    have heq : cycleFinding G c = some (circularFindingOf G c) := by
      simp [cycleFinding, circularFindingOf, hlen]
    exact ⟨heq, List.mem_append_right _ (List.mem_filterMap.2 ⟨c, hc, heq⟩)⟩
  · intro c hc hlen
    rw [hdedup c hc] at hlen
    simp [cycleFinding, hlen]
  · rw [detect_mismatches, List.countP_append]
    have hinv : (G.nodes.flatMap (nodeFindings G)).countP
        (fun f => decide (f.mismatch_type = "Circular Transaction Pattern")) = 0 := by
      rw [List.countP_eq_zero]
      intro f hf
      obtain ⟨x, _, hfx⟩ := List.mem_flatMap.1 hf
      unfold nodeFindings at hfx
      split_ifs at hfx
      · rcases mem_invoiceChecks hfx with ⟨-, ht4, -, -⟩
        rcases ht4 with h' | h' | h' | h' <;> simp [h']
      · cases hfx
    rw [hinv, Nat.zero_add, countP_circ_cycleFindings]
    refine List.countP_congr fun c hc => ?_
    rw [hdedup c hc]

/-- C2 at the concrete graph with a taxpayer 2-cycle: one circular
finding, matching the count of qualifying cycles. -/
theorem claim_C2_witness :
    Gw.Wf ∧
    (detect_mismatches Gw).countP
        (fun f => decide (f.mismatch_type = "Circular Transaction Pattern")) =
      Gw.simpleCycles.countP
        (fun c => decide (2 ≤ (taxpayersOf Gw c).dedup.length)) ∧
    (detect_mismatches Gw).countP
        (fun f => decide (f.mismatch_type = "Circular Transaction Pattern")) = 2 := by
  refine ⟨by decide, (claim_C2 Gw (by decide)).2.2.2.2.2, by decide⟩

/-! ### Narrative claims C7 and C6 -/

lemma length_pos_left (a b : String) (h : 0 < a.length) : 0 < (a ++ b).length := by
  rw [String.length_append]
  omega

lemma ruleDescription_pos (m : Finding) : 0 < (ruleDescription m).length := by
  unfold ruleDescription
  split_ifs <;> (repeat first | decide | apply length_pos_left)

lemma ruleRootCause_pos (m : Finding) : 0 < (ruleRootCause m).length := by
  unfold ruleRootCause
  split_ifs <;> (repeat first | decide | apply length_pos_left)

/-- C7: the deterministic fallback is a total function setting both
narrative fields, and the template strings are non-empty for each of
the five known mismatch types and for any unrecognized type string. -/
theorem claim_C7 (m : Finding) :
    (rule_based_audit m).description = some (ruleDescription m) ∧
    (rule_based_audit m).root_cause = some (ruleRootCause m) ∧
    0 < (ruleDescription m).length ∧ 0 < (ruleRootCause m).length :=
  ⟨rfl, rfl, ruleDescription_pos m, ruleRootCause_pos m⟩

/-- C6 counterexample: a service response whose brace-delimited JSON
object parses but carries neither narrative key is merged as-is, so
`llm_audit` returns a result with no description at all — refuting the
claim that the result always contains both `description` and
`root_cause` for every possible response. -/
theorem claim_C6_counterexample :
    (llm_audit "K" (ServiceOutcome.ok "\x7b\"x\": \"1\"\x7d") fW).description =
      none ∧
    llm_audit "K" (ServiceOutcome.ok "\x7b\"x\": \"1\"\x7d") fW ≠
      rule_based_audit fW := by
  exact ⟨by decide, by decide⟩

/-- C6 (amended): `llm_audit` is total and never escalates a failure:
it returns either the deterministic fallback (which always carries
non-empty description and root_cause) or the finding merged with a
successfully parsed JSON object; a missing credential, a service error
or timeout, or a response without a parseable brace-delimited JSON
object all fall through to the fallback.  (The merge path carries both
narrative keys only when the parsed object provides them.) -/
theorem claim_C6_amended (key : String) (resp : ServiceOutcome) (m : Finding) :
    (llm_audit key resp m = rule_based_audit m ∨
      ∃ text kvs, resp = ServiceOutcome.ok text ∧
        (extractBraced (pyStrip text)).bind parseJsonObject = some kvs ∧
        llm_audit key resp m = mergeParsed m kvs) ∧
    (key = "" → llm_audit key resp m = rule_based_audit m) ∧
    (resp = ServiceOutcome.err → llm_audit key resp m = rule_based_audit m) ∧
    (∀ text, resp = ServiceOutcome.ok text →
      (extractBraced (pyStrip text)).bind parseJsonObject = none →
      llm_audit key resp m = rule_based_audit m) ∧
    (rule_based_audit m).description = some (ruleDescription m) ∧
    (rule_based_audit m).root_cause = some (ruleRootCause m) ∧
    0 < (ruleDescription m).length ∧ 0 < (ruleRootCause m).length := by
  have hmain : (llm_audit key resp m = rule_based_audit m ∨
      ∃ text kvs, resp = ServiceOutcome.ok text ∧
        (extractBraced (pyStrip text)).bind parseJsonObject = some kvs ∧
        llm_audit key resp m = mergeParsed m kvs) ∧
      (key = "" → llm_audit key resp m = rule_based_audit m) ∧
      (resp = ServiceOutcome.err → llm_audit key resp m = rule_based_audit m) ∧
      (∀ text, resp = ServiceOutcome.ok text →
        (extractBraced (pyStrip text)).bind parseJsonObject = none →
        llm_audit key resp m = rule_based_audit m) := ?_
  · exact ⟨hmain.1, hmain.2.1, hmain.2.2.1, hmain.2.2.2, rfl, rfl,
      ruleDescription_pos m, ruleRootCause_pos m⟩
  by_cases hk : key = ""
  · refine ⟨Or.inl ?_, fun _ => ?_, fun _ => ?_, fun t _ _ => ?_⟩ <;>
      simp [llm_audit, hk]
  · cases resp with
    | err =>
      refine ⟨Or.inl ?_, fun h => absurd h hk, fun _ => ?_, fun t ht => ?_⟩
      · simp [llm_audit, hk]
      · simp [llm_audit, hk]
      · cases ht
    | ok text =>
      refine ⟨?_, fun h => absurd h hk, nofun, fun t ht hb => ?_⟩
      · cases hx : extractBraced (pyStrip text) with
        | none => exact Or.inl (by simp [llm_audit, hk, hx])
        | some js =>
          cases hp : parseJsonObject js with
          | none => exact Or.inl (by simp [llm_audit, hk, hx, hp])
          | some kvs =>
            exact Or.inr ⟨text, kvs, rfl, by rw [hx]; simpa using hp,
              by simp [llm_audit, hk, hx, hp]⟩
      · cases ht
        cases hx : extractBraced (pyStrip text) with
        | none => simp [llm_audit, hk, hx]
        | some js =>
          rw [hx] at hb
          cases hp : parseJsonObject js with
          | none => simp [llm_audit, hk, hx, hp]
          | some kvs => simp [hp] at hb

/-- C6 fallback paths at concrete inputs: empty credential and service
error both yield the fallback. -/
theorem claim_C6_witness :
    llm_audit "" (ServiceOutcome.ok "no braces here") fW = rule_based_audit fW ∧
    llm_audit "K" ServiceOutcome.err fW = rule_based_audit fW := by
  have h1 := claim_C6_amended "" (ServiceOutcome.ok "no braces here") fW
  have h2 := claim_C6_amended "K" ServiceOutcome.err fW
  exact ⟨h1.2.1 rfl, h2.2.2.1 rfl⟩

/-! ### Persistence claims C3 and C8 -/

/-- Mapping matching entries to a fresh matching value keeps the match
count. -/
lemma countP_map_upsert (p : AuditEntry → Bool) (g : AuditEntry)
    (hg : p g = true) (s : List AuditEntry) :
    (s.map fun e => if p e then g else e).countP p = s.countP p := by
  induction s with
  | nil => rfl
  | cons e s ih =>
    by_cases he : p e = true <;>
      simp [List.countP_cons, he, hg, ih]

lemma entryKeyMatches_mk (a : Audit) (now : Nat) :
    entryKeyMatches a (mkAuditEntry a now) = true := by
  simp [entryKeyMatches, mkAuditEntry]

/-- Upserting into a store holding at most one entry for the key leaves
exactly one entry for the key. -/
lemma countP_storeUpsert (s : List AuditEntry) (a : Audit) (now : Nat)
    (h : s.countP (entryKeyMatches a) ≤ 1) :
    (storeUpsert s a now).countP (entryKeyMatches a) = 1 := by
  unfold storeUpsert
  split_ifs with hany
  · rw [countP_map_upsert _ _ (entryKeyMatches_mk a now)]
    obtain ⟨e, he, hpe⟩ := List.any_eq_true.1 hany
    have : 0 < s.countP (entryKeyMatches a) :=
      List.countP_pos_iff.2 ⟨e, he, hpe⟩
    omega
  · have h0 : s.countP (entryKeyMatches a) = 0 := by
      rw [List.countP_eq_zero]
      intro e he hpe
      exact absurd (List.any_eq_true.2 ⟨e, he, hpe⟩) hany
    simp [List.countP_append, h0, entryKeyMatches_mk a now]

/-- Every entry of an upsert result that matches the key carries
exactly the attribute values of this upsert. -/
lemma mem_storeUpsert_matching (s : List AuditEntry) (a : Audit) (now : Nat) :
    ∀ e ∈ storeUpsert s a now, entryKeyMatches a e = true →
      e = mkAuditEntry a now := by
  unfold storeUpsert
  split_ifs with hany
  · intro e he hp
    obtain ⟨e', he', hfe⟩ := List.mem_map.1 he
    by_cases hpe : entryKeyMatches a e' = true
    · rw [if_pos hpe] at hfe
      exact hfe.symm
    · rw [if_neg hpe] at hfe
      subst hfe
      exact absurd hp hpe
  · intro e he hp
    rcases List.mem_append.1 he with h | h
    · exact absurd (List.any_eq_true.2 ⟨e, h, hp⟩) (by simpa using hany)
    · simpa using h

/-- The status-update endpoint touches only the `status` field, so key
matching and match counts are unchanged. -/
lemma countP_update_audit_status (s : List AuditEntry) (inv st : String)
    (a : Audit) :
    (update_audit_status s inv st).countP (entryKeyMatches a) =
      s.countP (entryKeyMatches a) := by
  unfold update_audit_status
  rw [List.countP_map]
  refine List.countP_congr fun e _ => ?_
  by_cases h : (e.inv_no == inv) = true <;>
    simp [Function.comp, h, entryKeyMatches]

/-- A store whose composite keys are duplicate-free holds at most one
entry matching any given key. -/
lemma countP_le_one_of_nodup_keys (s : List AuditEntry)
    (hwf : (s.map fun e => (e.inv_no, e.mismatch_type)).Nodup) (a : Audit) :
    s.countP (entryKeyMatches a) ≤ 1 := by
  induction s with
  | nil => simp
  | cons e s ih =>
    simp only [List.map_cons, List.nodup_cons] at hwf
    obtain ⟨hnot, hwf'⟩ := hwf
    rw [List.countP_cons]
    by_cases hpe : entryKeyMatches a e = true
    · have h0 : s.countP (entryKeyMatches a) = 0 := by
        rw [List.countP_eq_zero]
        intro e' he' hpe'
        apply hnot
        simp only [entryKeyMatches, Bool.and_eq_true, beq_iff_eq] at hpe hpe'
        have hk : (e'.inv_no, e'.mismatch_type) = (e.inv_no, e.mismatch_type) := by
          rw [hpe.1, hpe.2, hpe'.1, hpe'.2]
        exact hk ▸ List.mem_map_of_mem _ he'
      simp [hpe, h0]
    · have := ih hwf'
      rw [if_neg hpe]
      omega

/-- C3: persisting a finding is an idempotent upsert keyed by
(invoice id, mismatch-type).  Writing the key, manually reviewing the
entry, then writing the key again leaves exactly one entry for the key,
and that entry carries every attribute of the second write — including
lifecycle status reset to `flagged` — rather than the manual `reviewed`
status. -/
theorem claim_C3 (s : List AuditEntry)
    (hwf : (s.map fun e => (e.inv_no, e.mismatch_type)).Nodup)
    (a : Audit) (now1 now2 : Nat) :
    (storeUpsert (update_audit_status (storeUpsert s a now1) a.inv_no
        "reviewed") a now2).countP (entryKeyMatches a) = 1 ∧
    (∀ e ∈ storeUpsert (update_audit_status (storeUpsert s a now1) a.inv_no
        "reviewed") a now2, entryKeyMatches a e = true →
      e = mkAuditEntry a now2) ∧
    (mkAuditEntry a now2).status = "flagged" ∧
    (mkAuditEntry a now2).description = a.description.getD "" ∧
    (mkAuditEntry a now2).root_cause = a.root_cause.getD "" ∧
    (mkAuditEntry a now2).traversal_path =
      String.intercalate " → " a.traversal_path := by
  have hle : s.countP (entryKeyMatches a) ≤ 1 :=
    countP_le_one_of_nodup_keys s hwf a
  have h1 : (storeUpsert s a now1).countP (entryKeyMatches a) = 1 :=
    countP_storeUpsert s a now1 hle
  have h2 : (update_audit_status (storeUpsert s a now1) a.inv_no
      "reviewed").countP (entryKeyMatches a) = 1 := by
    rw [countP_update_audit_status, h1]
  refine ⟨countP_storeUpsert _ a now2 (by omega),
    mem_storeUpsert_matching _ a now2, rfl, rfl, rfl, rfl⟩

/-- The audit dict of the end-to-end example finding. -/
def aW : Audit := rule_based_audit fW

/-- C3 at a concrete store: two upserts with a manual review in between
leave one `flagged` entry. -/
theorem claim_C3_witness :
    (storeUpsert (update_audit_status (storeUpsert [] aW 100) aW.inv_no
        "reviewed") aW 200).countP (entryKeyMatches aW) = 1 ∧
    (storeUpsert (update_audit_status (storeUpsert [] aW 100) aW.inv_no
        "reviewed") aW 200).map (fun e => e.status) = ["flagged"] := by
  exact ⟨(claim_C3 [] (by decide) aW 100 200).1, by decide⟩

/-- C8: the per-finding loop processes every finding whatever the
per-entry persistence outcomes: the generated narratives and the
attempted (invoice, type) keys are independent of the store-failure
oracle, cover the findings in order, and each narrative is exactly
`llm_audit` of the corresponding finding. -/
theorem claim_C8 (key : String) (resp : Nat → ServiceOutcome)
    (storeOk : Nat → Bool) (now : Nat → Nat) (ms : List Finding) (i : Nat)
    (s : List AuditEntry) :
    (processFindings key resp storeOk now ms i s).2.1 =
      ms.mapIdx (fun j m => llm_audit key (resp (i + j)) m) ∧
    (processFindings key resp storeOk now ms i s).2.2 =
      (processFindings key resp storeOk now ms i s).2.1.map
        (fun a => (a.inv_no, a.mismatch_type)) ∧
    (processFindings key resp storeOk now ms i s).2.1.length = ms.length := by
  induction ms generalizing i s with
  | nil => exact ⟨rfl, rfl, rfl⟩
  | cons m rest ih =>
    obtain ⟨ha, hk, hl⟩ := ih (i + 1)
      (store_audit_entry (storeOk i) s (llm_audit key (resp i) m) (now i))
    refine ⟨?_, ?_, ?_⟩
    · simp only [processFindings, ha, List.mapIdx_cons, Nat.add_zero]
      have harith : ∀ j : Nat, i + 1 + j = i + (j + 1) := fun j => by omega
      simp [harith]
    · simp only [processFindings, List.map_cons]
      rw [hk]
    · simp only [processFindings, List.length_cons, hl]

/-! ### Builder claim C9 -/

/-- An edge with the given endpoints exists (whatever its `rel`). -/
def EdgePresent (G : Graph) (x y : String) : Prop :=
  ∃ e ∈ G.edges, e.1 = x ∧ e.2.1 = y

lemma ensureNode_edges (G : Graph) (n : String) :
    (ensureNode G n).edges = G.edges := by
  unfold ensureNode
  split_ifs <;> rfl

lemma setTaxpayer_edges (G : Graph) (n : String) :
    (setTaxpayer G n).edges = G.edges := by
  unfold setTaxpayer
  split_ifs <;> rfl

lemma setInvoice_edges (G : Graph) (r : Row) :
    (setInvoice G r).edges = G.edges := by
  unfold setInvoice
  split_ifs <;> rfl

lemma addEdgeNX_edges (G : Graph) (u v rel : String) :
    (addEdgeNX G u v rel).edges =
      if G.edges.any (fun e => e.1 == u && e.2.1 == v) then
        G.edges.map fun e => if e.1 == u && e.2.1 == v then (u, v, rel) else e
      else G.edges ++ [(u, v, rel)] := by
  simp only [addEdgeNX, ensureNode_edges]
  split_ifs <;> rfl

lemma edgePresent_addEdgeNX (G : Graph) (u v rel x y : String)
    (h : EdgePresent G x y) : EdgePresent (addEdgeNX G u v rel) x y := by
  obtain ⟨e, he, hx, hy⟩ := h
  unfold EdgePresent
  rw [addEdgeNX_edges]
  split_ifs with hany
  · by_cases hm : (e.1 == u && e.2.1 == v) = true
    · simp only [Bool.and_eq_true, beq_iff_eq] at hm
      refine ⟨(u, v, rel), List.mem_map.2 ⟨e, he, by simp [hm]⟩, ?_, ?_⟩
      · rw [← hx, hm.1]
      · rw [← hy, hm.2]
    · exact ⟨e, List.mem_map.2 ⟨e, he, by simp [hm]⟩, hx, hy⟩
  · exact ⟨e, List.mem_append_left _ he, hx, hy⟩

lemma edgePresent_addEdgeNX_self (G : Graph) (u v rel : String) :
    EdgePresent (addEdgeNX G u v rel) u v := by
  unfold EdgePresent
  rw [addEdgeNX_edges]
  split_ifs with hany
  · obtain ⟨e, he, hm⟩ := List.any_eq_true.1 hany
    exact ⟨(u, v, rel), List.mem_map.2 ⟨e, he, by simp [hm]⟩, rfl, rfl⟩
  · exact ⟨(u, v, rel), List.mem_append_right _ (by simp), rfl, rfl⟩

lemma mem_nodes_ensureNode {G : Graph} {m n : String} {d : NodeData}
    (h : (n, d) ∈ (ensureNode G m).nodes) : (n, d) ∈ G.nodes ∨ d = {} := by
  unfold ensureNode at h
  split_ifs at h
  · exact Or.inl h
  · rcases List.mem_append.1 h with h | h
    · exact Or.inl h
    · simp only [List.mem_singleton, Prod.mk.injEq] at h
      exact Or.inr h.2

lemma mem_nodes_setTaxpayer {G : Graph} {m n : String} {d : NodeData}
    (h : (n, d) ∈ (setTaxpayer G m).nodes) (hd : d.typ = some "Invoice") :
    (n, d) ∈ G.nodes := by
  unfold setTaxpayer at h
  split_ifs at h with hany
  · obtain ⟨p, hp, hfe⟩ := List.mem_map.1 h
    by_cases hm : (p.1 == m) = true
    · rw [if_pos hm] at hfe
      cases hfe
      simp at hd
    · rw [if_neg hm] at hfe
      exact hfe ▸ hp
  · rcases List.mem_append.1 h with h | h
    · exact h
    · simp only [List.mem_singleton, Prod.mk.injEq] at h
      obtain ⟨-, h2⟩ := h
      subst h2
      simp at hd

lemma mem_nodes_setInvoice {G : Graph} {r : Row} {n : String} {d : NodeData}
    (h : (n, d) ∈ (setInvoice G r).nodes) :
    n = r.inv_no ∨ ((n, d) ∈ G.nodes ∧ n ≠ r.inv_no) := by
  unfold setInvoice at h
  split_ifs at h with hany
  · obtain ⟨p, hp, hfe⟩ := List.mem_map.1 h
    by_cases hm : (p.1 == r.inv_no) = true
    · rw [if_pos hm] at hfe
      cases hfe
      rw [beq_iff_eq] at hm
      exact Or.inl hm
    · rw [if_neg hm] at hfe
      rw [beq_iff_eq] at hm
      cases hfe
      exact Or.inr ⟨hp, hm⟩
  · rcases List.mem_append.1 h with h | h
    · refine Or.inr ⟨h, fun hn => ?_⟩
      exact absurd (List.any_eq_true.2 ⟨(n, d), h, by simp [hn]⟩) hany
    · simp only [List.mem_singleton, Prod.mk.injEq] at h
      exact Or.inl h.1

lemma mem_nodes_addEdgeNX {G : Graph} {u v rel n : String} {d : NodeData}
    (h : (n, d) ∈ (addEdgeNX G u v rel).nodes) : (n, d) ∈ G.nodes ∨ d = {} := by
  have hn : (addEdgeNX G u v rel).nodes = (ensureNode (ensureNode G u) v).nodes := by
    simp only [addEdgeNX]
    split_ifs <;> rfl
  rw [hn] at h
  rcases mem_nodes_ensureNode h with h | h
  · exact mem_nodes_ensureNode h
  · exact Or.inr h

/-- The invariant `build_networkx_graph` maintains: every Invoice-typed
node has an in-edge and an out-edge. -/
def InvoiceLinked (G : Graph) : Prop :=
  ∀ n d, (n, d) ∈ G.nodes → d.typ = some "Invoice" →
    (∃ x, EdgePresent G x n) ∧ (∃ y, EdgePresent G n y)

lemma addRow_invoiceLinked {G : Graph} (r : Row) (hG : InvoiceLinked G) :
    InvoiceLinked (addRow G r) := by
  intro n d hmem hinv
  by_cases hn : n = r.inv_no
  · subst hn
    unfold addRow
    refine ⟨⟨r.supplier, ?_⟩, ⟨r.buyer, ?_⟩⟩
    · exact edgePresent_addEdgeNX _ _ _ _ _ _
        (edgePresent_addEdgeNX_self _ _ _ _)
    · exact edgePresent_addEdgeNX_self _ _ _ _
  · unfold addRow at hmem
    rcases mem_nodes_addEdgeNX hmem with hmem | hd
    · rcases mem_nodes_addEdgeNX hmem with hmem | hd
      · rcases mem_nodes_setInvoice hmem with h | ⟨hmem, -⟩
        · exact absurd h hn
        · have hmem2 := mem_nodes_setTaxpayer (mem_nodes_setTaxpayer hmem hinv) hinv
          obtain ⟨⟨x, hx⟩, ⟨y, hy⟩⟩ := hG n d hmem2 hinv
          have hpres : ∀ z w, EdgePresent G z w → EdgePresent (addRow G r) z w := by
            intro z w hzw
            unfold addRow
            apply edgePresent_addEdgeNX
            apply edgePresent_addEdgeNX
            unfold EdgePresent
            rw [setInvoice_edges, setTaxpayer_edges, setTaxpayer_edges]
            exact hzw
          exact ⟨⟨x, hpres x n hx⟩, ⟨y, hpres n y hy⟩⟩
      · rw [hd] at hinv
        cases hinv
    · rw [hd] at hinv
      cases hinv

lemma build_invoiceLinked (rows : List Row) :
    InvoiceLinked (build_networkx_graph rows) := by
  unfold build_networkx_graph
  suffices h : ∀ G : Graph, InvoiceLinked G → InvoiceLinked (rows.foldl addRow G) by
    refine h {} ?_
    intro n d hmem _
    cases hmem
  induction rows with
  | nil => exact fun G hG => hG
  | cons r rows ih =>
    intro G hG
    rw [List.foldl_cons]
    exact ih (addRow G r) (addRow_invoiceLinked r hG)

/-- C9: in every graph the builder produces, each Invoice-typed node has
at least one predecessor and at least one successor, so the detection
loop's supplier/buyer resolution takes the first-neighbor branch — the
`"UNKNOWN"` fallback is never used on built graphs. -/
theorem claim_C9 (rows : List Row) (n : String) (d : NodeData)
    (hmem : (n, d) ∈ (build_networkx_graph rows).nodes)
    (hinv : d.typ = some "Invoice") :
    (build_networkx_graph rows).predecessors n ≠ [] ∧
    (build_networkx_graph rows).successors n ≠ [] ∧
    (∃ p ps, (build_networkx_graph rows).predecessors n = p :: ps ∧
      ((build_networkx_graph rows).predecessors n).headD "UNKNOWN" = p) ∧
    (∃ b bs, (build_networkx_graph rows).successors n = b :: bs ∧
      ((build_networkx_graph rows).successors n).headD "UNKNOWN" = b) := by
  obtain ⟨⟨x, e, he, hx, hy⟩, ⟨y, e', he', hx', hy'⟩⟩ :=
    build_invoiceLinked rows n d hmem hinv
  have hpred : (build_networkx_graph rows).predecessors n ≠ [] := by
    unfold Graph.predecessors
    exact List.ne_nil_of_mem (List.mem_map_of_mem Prod.fst
      (List.mem_filter.2 ⟨he, by simp [hy]⟩))
  have hsucc : (build_networkx_graph rows).successors n ≠ [] := by
    unfold Graph.successors
    exact List.ne_nil_of_mem (List.mem_map_of_mem (fun e => e.2.1)
      (List.mem_filter.2 ⟨he', by simp [hx']⟩))
  refine ⟨hpred, hsucc, ?_, ?_⟩
  · cases hp : (build_networkx_graph rows).predecessors n with
    | nil => exact absurd hp hpred
    | cons p ps => exact ⟨p, ps, rfl, rfl⟩
  · cases hs : (build_networkx_graph rows).successors n with
    | nil => exact absurd hs hsucc
    | cons b bs => exact ⟨b, bs, rfl, rfl⟩

/-- The single row of the end-to-end example. -/
def rW : Row :=
  { supplier := "S1", buyer := "B1", inv_no := "INV-9", amount := some 1000,
    status := some "mismatch", hsn_code := some "1234", tax_rate := some 18,
    period := some "2024-01" }

/-- C9 at a concrete built graph. -/
theorem claim_C9_witness :
    ("INV-9", invoiceData rW) ∈ (build_networkx_graph [rW]).nodes ∧
    (build_networkx_graph [rW]).predecessors "INV-9" ≠ [] ∧
    (build_networkx_graph [rW]).predecessors "INV-9" = ["S1"] ∧
    (build_networkx_graph [rW]).successors "INV-9" = ["B1"] := by
  exact ⟨by decide, (claim_C9 [rW] "INV-9" (invoiceData rW) (by decide)
    (by decide)).1, by decide, by decide⟩

end GST
